import Mathlib

/-!
Verification of the expiring key-value cache (`cache_manager` package).

The Go source is embedded shallowly:

* `time.Time` / `time.Duration` values are modelled by `Int`, in the
  nanosecond scale used by `UnixNano()`; every operation that calls
  `time.Now()` takes the current instant as an explicit `now : Int`
  argument.
* the Go map `map[string]Value` is modelled by an association list
  `List (String × Value)`; `dataGet`, `dataSet` and `dataDel` implement
  map indexing, assignment and `delete`, keeping at most one binding per
  key (as a Go map does).
* methods that mutate the receiver return the updated `Cache`;
  `Delete` additionally returns the `error` value as an `Option String`
  (`none` = Go `nil` error).
-/

set_option autoImplicit false
set_option linter.dupNamespace false

namespace CacheManager

/-- `type Value struct { CreateTime time.Time; Expiration int64; Value string }` -/
structure Value where
  CreateTime : Int
  Expiration : Int
  Value : String
  deriving DecidableEq, Repr

/-- `type Cache struct { defaultExpiration, cleanupTime time.Duration; data map[string]Value }`
(the embedded `sync.RWMutex` has no sequential content). -/
structure Cache where
  defaultExpiration : Int
  cleanupTime : Int
  data : List (String × Value)
  deriving DecidableEq, Repr

/-- Go map indexing `v, found := m[k]`: the value bound to `k`, if any. -/
def dataGet (m : List (String × Value)) (k : String) : Option Value :=
  match m with
  | [] => none
  | (k', v) :: rest => if k' = k then some v else dataGet rest k

/-- Go map `delete(m, k)`: removes every binding of `k`. -/
def dataDel (m : List (String × Value)) (k : String) : List (String × Value) :=
  match m with
  | [] => []
  | (k', v) :: rest => if k' = k then dataDel rest k else (k', v) :: dataDel rest k

/-- Go map assignment `m[k] = v`: binds `k` to `v`, replacing any previous binding. -/
def dataSet (m : List (String × Value)) (k : String) (v : Value) : List (String × Value) :=
  (k, v) :: dataDel m k

/-- `CacheCreate(defaultExpiration, cleanupTime)`: fresh cache with an empty map.
(The `startGC` goroutine spawned when `cleanupTime > 0` is concurrency; its
per-tick work is modelled by `Cache.expiredKeys` / `Cache.clearValues`.) -/
def CacheCreate (defaultExpiration cleanupTime : Int) : Cache :=
  { data := [], defaultExpiration := defaultExpiration, cleanupTime := cleanupTime }

/-- `func (c *Cache) Set(key string, value string, duration time.Duration)`.
If `duration == 0` the cache's `defaultExpiration` is substituted; if the
effective duration is `> 0` the entry's `Expiration` is `now + duration`
(`time.Now().Add(duration).UnixNano()`), otherwise it stays at the zero
sentinel. -/
def Cache.Set (c : Cache) (key value : String) (duration : Int) (now : Int) : Cache :=
  let d := if duration = 0 then c.defaultExpiration else duration
  let expiration : Int := if d > 0 then now + d else 0
  let item : Value := Value.mk now expiration value
  { c with data := dataSet c.data key item }

/-- `func (c *Cache) Get(key string) (string, bool)`. -/
def Cache.Get (c : Cache) (key : String) (now : Int) : String × Bool :=
  match dataGet c.data key with
  | none => ("", false)
  | some item =>
    if item.Expiration > 0 ∧ now > item.Expiration then ("", false)
    else (item.Value, true)

/-- `Cache.Get` with the receiver state threaded through explicitly, for the
frame property: the Go body only reads `c.data`, so every branch returns the
receiver unchanged. -/
def Cache.GetS (c : Cache) (key : String) (now : Int) : Cache × (String × Bool) :=
  match dataGet c.data key with
  | none => (c, ("", false))
  | some item =>
    if item.Expiration > 0 ∧ now > item.Expiration then (c, ("", false))
    else (c, (item.Value, true))

/-- `func (c *Cache) Delete(key string) error`: the updated cache together
with the returned error (`none` = `nil`). -/
def Cache.Delete (c : Cache) (key : String) : Cache × Option String :=
  match dataGet c.data key with
  | none => (c, some "error: Key not found")
  | some _ => ({ c with data := dataDel c.data key }, none)

/-- `func (c *Cache) expiredKeys() (keys []string)`: keys of the entries whose
finite expiration lies strictly in the past at scan time. -/
def Cache.expiredKeys (c : Cache) (now : Int) : List String :=
  (c.data.filter fun p => decide (p.2.Expiration > 0 ∧ now > p.2.Expiration)).map Prod.fst

/-- `func (c *Cache) clearValues(keys []string)`: deletes each listed key. -/
def Cache.clearValues (c : Cache) (keys : List String) : Cache :=
  { c with data := keys.foldl dataDel c.data }

/-- A cache holding one entry whose expiration instant is exactly `5`. -/
def cacheEq : Cache := ⟨0, 0, [("a", ⟨0, 5, "1"⟩)]⟩

/-- A cache holding one entry expiring at instant `10`. -/
def cacheTtl : Cache := ⟨0, 0, [("a", ⟨0, 10, "1"⟩)]⟩

/-- A cache with an expired entry, a live entry and a never-expiring entry
(as seen from instant `10`). -/
def cacheSweep : Cache := ⟨0, 0, [("a", ⟨0, 5, "1"⟩), ("b", ⟨0, 100, "2"⟩), ("c", ⟨0, 0, "3"⟩)]⟩

/-! ### Map lemmas -/

theorem dataGet_dataDel_self (m : List (String × Value)) (k : String) :
    dataGet (dataDel m k) k = none := by
  induction m with
  | nil => rfl
  | cons p rest ih =>
    obtain ⟨k', v⟩ := p
    by_cases h : k' = k <;> simp [dataDel, dataGet, h, ih]

theorem dataGet_dataDel_ne (m : List (String × Value)) {k k' : String} (h : k' ≠ k) :
    dataGet (dataDel m k) k' = dataGet m k' := by
  induction m with
  | nil => rfl
  | cons p rest ih =>
    obtain ⟨k₀, v⟩ := p
    by_cases h₀ : k₀ = k
    · subst h₀
      simp [dataDel, dataGet, Ne.symm h, ih]
    · by_cases h₁ : k₀ = k' <;> simp [dataDel, dataGet, h₀, h₁, h, ih]

theorem dataGet_dataSet_self (m : List (String × Value)) (k : String) (v : Value) :
    dataGet (dataSet m k v) k = some v := by
  simp [dataSet, dataGet]

theorem dataGet_dataSet_ne (m : List (String × Value)) {k k' : String} (v : Value)
    (h : k' ≠ k) : dataGet (dataSet m k v) k' = dataGet m k' := by
  simp [dataSet, dataGet, Ne.symm h, dataGet_dataDel_ne m h]

theorem not_mem_keys_dataDel (m : List (String × Value)) (k : String) :
    k ∉ (dataDel m k).map Prod.fst := by
  induction m with
  | nil => simp [dataDel]
  | cons p rest ih =>
    obtain ⟨k', v⟩ := p
    by_cases h : k' = k <;> simp [dataDel, h, ih]
    exact fun e => h e.symm

theorem dataGet_foldl_dataDel (ks : List String) (m : List (String × Value)) (k : String) :
    dataGet (ks.foldl dataDel m) k = if k ∈ ks then none else dataGet m k := by
  induction ks generalizing m with
  | nil => simp
  | cons k₀ ks ih =>
    by_cases h : k = k₀
    · subst h
      simp only [List.foldl_cons, ih, List.mem_cons, true_or, if_true]
      by_cases hm : k ∈ ks <;> simp [hm, dataGet_dataDel_self]
    · simp [List.foldl_cons, ih, h, dataGet_dataDel_ne m h]

theorem dataGet_eq_none_of_not_mem_keys {m : List (String × Value)} {k : String}
    (h : k ∉ m.map Prod.fst) : dataGet m k = none := by
  induction m with
  | nil => rfl
  | cons p rest ih =>
    obtain ⟨k', v⟩ := p
    simp only [List.map_cons, List.mem_cons] at h
    push_neg at h
    simp [dataGet, Ne.symm h.1, ih h.2]

theorem mem_of_dataGet_eq_some {m : List (String × Value)} {k : String} {v : Value}
    (h : dataGet m k = some v) : (k, v) ∈ m := by
  induction m with
  | nil => simp [dataGet] at h
  | cons p rest ih =>
    obtain ⟨k', w⟩ := p
    by_cases hk : k' = k
    · subst hk
      simp [dataGet] at h
      simp [h]
    · simp only [dataGet, if_neg hk] at h
      exact List.mem_cons_of_mem _ (ih h)

theorem dataGet_eq_some_of_mem {m : List (String × Value)} {k : String} {v : Value}
    (hm : (m.map Prod.fst).Nodup) (h : (k, v) ∈ m) : dataGet m k = some v := by
  induction m with
  | nil => simp at h
  | cons p rest ih =>
    obtain ⟨k', w⟩ := p
    simp only [List.map_cons, List.nodup_cons] at hm
    rcases List.mem_cons.1 h with h₀ | h₀
    · obtain ⟨rfl, rfl⟩ := Prod.mk.injEq .. ▸ h₀
      simp [dataGet]
    · by_cases hk : k' = k
      · subst hk
        exact absurd (List.mem_map.2 ⟨(k', v), h₀, rfl⟩) hm.1
      · simpa [dataGet, hk] using ih hm.2 h₀

theorem mem_keys_of_mem_keys_filter {m : List (String × Value)} {p : String × Value → Bool}
    {k : String} (h : k ∈ (m.filter p).map Prod.fst) : k ∈ m.map Prod.fst := by
  rcases List.mem_map.1 h with ⟨q, hq, rfl⟩
  exact List.mem_map.2 ⟨q, List.mem_of_mem_filter hq, rfl⟩

theorem dataGet_isSome_of_mem_keys {m : List (String × Value)} {k : String}
    (h : k ∈ m.map Prod.fst) : (dataGet m k).isSome = true := by
  induction m with
  | nil => simp at h
  | cons p rest ih =>
    obtain ⟨k', v⟩ := p
    by_cases hk : k' = k
    · simp [dataGet, hk]
    · simp only [List.map_cons, List.mem_cons] at h
      rcases h with h | h
      · exact absurd h.symm hk
      · simp [dataGet, hk, ih h]

/-! ### Claims -/

/-- Claim C1, counterexample: at the instant `now = expiresAt` the entry is
still returned as live (`Get` reports `found = true`) although its expiration
is neither absent (`≤ 0`) nor strictly in the future, refuting the claim as
stated. -/
theorem C1_counterexample :
    (cacheEq.Get "a" 5).2 = true ∧
      dataGet cacheEq.data "a" = some (Value.mk 0 5 "1") ∧
      ¬((Value.mk 0 5 "1").Expiration ≤ 0 ∨ 5 < (Value.mk 0 5 "1").Expiration) := by
  refine ⟨by decide, by decide, by decide⟩

/-- Claim C1 (amended): whenever `Get` returns `found = true`, the stored
entry either has no expiration (sentinel `Expiration ≤ 0`) or its expiration
instant has not yet passed (`now ≤ expiresAt`); an entry whose expiration is
strictly past is never returned as live. -/
theorem C1_live_entry (c : Cache) (k : String) (now : Int)
    (h : (c.Get k now).2 = true) :
    ∃ v, dataGet c.data k = some v ∧ (v.Expiration ≤ 0 ∨ now ≤ v.Expiration) := by
  unfold Cache.Get at h
  rcases hd : dataGet c.data k with _ | v
  · rw [hd] at h
    simp at h
  · rw [hd] at h
    refine ⟨v, rfl, ?_⟩
    by_cases hc : v.Expiration > 0 ∧ now > v.Expiration
    · simp [hc] at h
    · push_neg at hc
      by_cases he : v.Expiration ≤ 0
      · exact Or.inl he
      · exact Or.inr (hc (by omega))

/-- Witness for C1 (amended) at a concrete live entry. -/
theorem C1_live_entry_witness :
    (cacheEq.Get "a" 5).2 = true ∧
      ∃ v, dataGet cacheEq.data "a" = some v ∧
        (v.Expiration ≤ 0 ∨ (5 : Int) ≤ v.Expiration) :=
  ⟨by decide, C1_live_entry cacheEq "a" 5 (by decide)⟩

/-- Claim C2: on a cache whose effective TTL for the call is non-expiring
(`defaultExpiration ≤ 0`, so the substituted duration is not positive),
`Set k v 0` immediately followed by `Get k` returns `(v, true)`. -/
theorem C2_round_trip (c : Cache) (k v : String) (now : Int)
    (h : c.defaultExpiration ≤ 0) :
    (c.Set k v 0 now).Get k now = (v, true) := by
  have hd : ¬(0 : Int) < c.defaultExpiration := by omega
  simp [Cache.Set, Cache.Get, dataGet_dataSet_self, hd]

/-- Witness for C2 on a fresh cache with `defaultExpiration = 0`. -/
theorem C2_round_trip_witness :
    ((CacheCreate 0 0).Set "a" "1" 0 0).Get "a" 0 = ("1", true) :=
  C2_round_trip (CacheCreate 0 0) "a" "1" 0 (by decide)

/-- Claim C3: `Get` is not-found on an absent key, not-found on an entry with
a finite expiration strictly in the past, and returns the stored value as
found on an entry with a finite expiration that has not yet passed. -/
theorem C3_get_semantics (c : Cache) (k : String) (now : Int) :
    (dataGet c.data k = none → c.Get k now = ("", false)) ∧
    (∀ v, dataGet c.data k = some v →
      (v.Expiration > 0 → now > v.Expiration → c.Get k now = ("", false)) ∧
      (v.Expiration > 0 → now ≤ v.Expiration → c.Get k now = (v.Value, true))) := by
  refine ⟨fun h => by simp [Cache.Get, h], fun v hv => ⟨fun he hn => ?_, fun he hn => ?_⟩⟩
  · simp [Cache.Get, hv, he, hn]
  · have hc : ¬(v.Expiration > 0 ∧ now > v.Expiration) := by omega
    simp [Cache.Get, hv, hc]

/-- Witness for C3: expired at `15`, still live at `5`, absent key miss. -/
theorem C3_get_semantics_witness :
    cacheTtl.Get "a" 15 = ("", false) ∧ cacheTtl.Get "a" 5 = ("1", true) ∧
      (CacheCreate 0 0).Get "a" 0 = ("", false) := by
  refine ⟨?_, ?_, ?_⟩
  · exact ((C3_get_semantics cacheTtl "a" 15).2 (Value.mk 0 10 "1")
      (by decide)).1 (by decide) (by decide)
  · exact ((C3_get_semantics cacheTtl "a" 5).2 (Value.mk 0 10 "1")
      (by decide)).2 (by decide) (by decide)
  · exact (C3_get_semantics (CacheCreate 0 0) "a" 0).1 (by decide)

/-- Claim C4: `Delete` returns the key-not-found error exactly when the key
is absent, leaving the map unchanged; on a present key it succeeds, removes
exactly that entry, and a subsequent `Get` of the key is not-found. -/
theorem C4_delete_semantics (c : Cache) (k : String) :
    ((c.Delete k).2.isSome = true ↔ dataGet c.data k = none) ∧
    (dataGet c.data k = none → c.Delete k = (c, some "error: Key not found")) ∧
    (∀ v, dataGet c.data k = some v →
      (c.Delete k).2 = none ∧
      dataGet (c.Delete k).1.data k = none ∧
      (∀ k', k' ≠ k → dataGet (c.Delete k).1.data k' = dataGet c.data k') ∧
      ∀ now, (c.Delete k).1.Get k now = ("", false)) := by
  rcases hd : dataGet c.data k with _ | w
  · refine ⟨by simp [Cache.Delete, hd], fun _ => by simp [Cache.Delete, hd], fun v hv => ?_⟩
    exact absurd hv (by simp)
  · refine ⟨by simp [Cache.Delete, hd], fun h => ?_, fun v hv => ?_⟩
    · exact absurd h (by simp)
    · refine ⟨by simp [Cache.Delete, hd], ?_, ?_, ?_⟩
      · simp [Cache.Delete, hd, dataGet_dataDel_self]
      · intro k' hk'
        simp [Cache.Delete, hd, dataGet_dataDel_ne c.data hk']
      · intro now
        simp [Cache.Get, Cache.Delete, hd, dataGet_dataDel_self]

/-- Witness for C4: deleting a present key succeeds and empties it; deleting
from an empty cache reports the error and changes nothing. -/
theorem C4_delete_semantics_witness :
    (cacheTtl.Delete "a").2 = none ∧
      dataGet (cacheTtl.Delete "a").1.data "a" = none ∧
      (cacheTtl.Delete "a").1.Get "a" 0 = ("", false) ∧
      (CacheCreate 0 0).Delete "a" = (CacheCreate 0 0, some "error: Key not found") := by
  have h := (C4_delete_semantics cacheTtl "a").2.2 (Value.mk 0 10 "1") (by decide)
  exact ⟨h.1, h.2.1, h.2.2.2 0, (C4_delete_semantics (CacheCreate 0 0) "a").2.1 (by decide)⟩

/-- Claim C5: `Set k v 0` substitutes the cache's `defaultExpiration`; when
that default is positive the entry's expiration instant is
`now + defaultExpiration`, and `Get` at any strictly later instant is
not-found. (`now` is a `UnixNano()` reading, hence non-negative.) -/
theorem C5_default_ttl (c : Cache) (k v : String) (now : Int)
    (h : 0 < c.defaultExpiration) (hnow : 0 ≤ now) :
    dataGet (c.Set k v 0 now).data k =
      some (Value.mk now (now + c.defaultExpiration) v) ∧
    ∀ t, now + c.defaultExpiration < t → (c.Set k v 0 now).Get k t = ("", false) := by
  have h1 : dataGet (c.Set k v 0 now).data k =
      some (Value.mk now (now + c.defaultExpiration) v) := by
    simp [Cache.Set, dataGet_dataSet_self, h]
  refine ⟨h1, fun t ht => ?_⟩
  have hc : (Value.mk now (now + c.defaultExpiration) v).Expiration > 0 ∧
      t > (Value.mk now (now + c.defaultExpiration) v).Expiration := by
    constructor <;> simp <;> omega
  simp [Cache.Get, h1, hc.1, hc.2]

/-- Witness for C5: default TTL 20ms (in nanoseconds); the entry set at
instant `0` expires at `20000000` and is gone for a read at 25ms. -/
theorem C5_default_ttl_witness :
    dataGet ((CacheCreate 20000000 0).Set "a" "1" 0 0).data "a" =
      some (Value.mk 0 20000000 "1") ∧
    ((CacheCreate 20000000 0).Set "a" "1" 0 0).Get "a" 25000000 = ("", false) := by
  have h := C5_default_ttl (CacheCreate 20000000 0) "a" "1" 0 (by decide) (by decide)
  exact ⟨by simpa using h.1, h.2 25000000 (by decide)⟩

/-- Claim C6: with `defaultExpiration = 0`, `Set k v 0` records the
non-expiring sentinel `0`, and `Get k` returns `(v, true)` at every instant,
however late. -/
theorem C6_never_expiring (c : Cache) (k v : String) (now : Int)
    (h : c.defaultExpiration = 0) :
    dataGet (c.Set k v 0 now).data k = some (Value.mk now 0 v) ∧
    ∀ t, (c.Set k v 0 now).Get k t = (v, true) := by
  have h1 : dataGet (c.Set k v 0 now).data k = some (Value.mk now 0 v) := by
    simp [Cache.Set, dataGet_dataSet_self, h]
  exact ⟨h1, fun t => by simp [Cache.Get, h1]⟩

/-- Witness for C6: the entry is still retrievable after a very long delay. -/
theorem C6_never_expiring_witness :
    ((CacheCreate 0 0).Set "a" "1" 0 0).Get "a" 1000000000000 = ("1", true) :=
  (C6_never_expiring (CacheCreate 0 0) "a" "1" 0 (by decide)).2 1000000000000

/-- Claim C7: one sweeper tick (`expiredKeys` then `clearValues`, with no
interleaved operation, on a cache whose map has no duplicate keys) removes
exactly the entries whose finite expiration is strictly past at scan time and
leaves every other entry — never-expiring ones included — unchanged. -/
theorem C7_sweep_tick (c : Cache) (now : Int)
    (hm : (c.data.map Prod.fst).Nodup) (k : String) :
    dataGet (c.clearValues (c.expiredKeys now)).data k =
      match dataGet c.data k with
      | none => none
      | some v => if v.Expiration > 0 ∧ now > v.Expiration then none else some v := by
  have key : dataGet (c.clearValues (c.expiredKeys now)).data k =
      if k ∈ c.expiredKeys now then none else dataGet c.data k :=
    dataGet_foldl_dataDel _ _ _
  rcases hd : dataGet c.data k with _ | v
  · have hk : k ∉ c.expiredKeys now := by
      intro hmem
      have hs := dataGet_isSome_of_mem_keys (mem_keys_of_mem_keys_filter hmem)
      rw [hd] at hs
      simp at hs
    rw [key, if_neg hk, hd]
  · by_cases hc : v.Expiration > 0 ∧ now > v.Expiration
    · have hk : k ∈ c.expiredKeys now :=
        List.mem_map.2 ⟨(k, v),
          List.mem_filter.2 ⟨mem_of_dataGet_eq_some hd, by simpa using hc⟩, rfl⟩
      rw [key, if_pos hk]
      simp [hc]
    · have hk : k ∉ c.expiredKeys now := by
        intro hmem
        rcases List.mem_map.1 hmem with ⟨⟨k₀, w⟩, hmf, hfst⟩
        rcases List.mem_filter.1 hmf with ⟨hmem₀, hP⟩
        simp only at hfst
        subst hfst
        have hw : dataGet c.data k₀ = some w := dataGet_eq_some_of_mem hm hmem₀
        rw [hd] at hw
        obtain rfl : v = w := by simpa using hw
        exact hc (by simpa using hP)
      rw [key, if_neg hk, hd]
      simp [hc]

/-- Witness for C7: at instant `10` the tick removes the entry expired at `5`
and keeps both the entry expiring at `100` and the never-expiring entry. -/
theorem C7_sweep_tick_witness :
    dataGet (cacheSweep.clearValues (cacheSweep.expiredKeys 10)).data "a" = none ∧
    dataGet (cacheSweep.clearValues (cacheSweep.expiredKeys 10)).data "b" =
      some (Value.mk 0 100 "2") ∧
    dataGet (cacheSweep.clearValues (cacheSweep.expiredKeys 10)).data "c" =
      some (Value.mk 0 0 "3") := by
  have ha := C7_sweep_tick cacheSweep 10 (by decide) "a"
  have hb := C7_sweep_tick cacheSweep 10 (by decide) "b"
  have hc := C7_sweep_tick cacheSweep 10 (by decide) "c"
  refine ⟨?_, ?_, ?_⟩
  · rw [ha]
    decide
  · rw [hb]
    decide
  · rw [hc]
    decide

/-- Claim C8: `Get` leaves the stored mapping completely unchanged — the
state-threaded `GetS` returns the receiver as is, every binding reads back
identically, and the returned pair is exactly `Get`'s result. -/
theorem C8_get_frame (c : Cache) (k : String) (now : Int) :
    (c.GetS k now).1 = c ∧
    (∀ k', dataGet (c.GetS k now).1.data k' = dataGet c.data k') ∧
    (c.GetS k now).2 = c.Get k now := by
  have h1 : (c.GetS k now).1 = c := by
    rcases hd : dataGet c.data k with _ | v
    · simp [Cache.GetS, hd]
    · by_cases hc : v.Expiration > 0 ∧ now > v.Expiration <;> simp [Cache.GetS, hd, hc]
  refine ⟨h1, fun k' => by rw [h1], ?_⟩
  rcases hd : dataGet c.data k with _ | v
  · simp [Cache.GetS, Cache.Get, hd]
  · by_cases hc : v.Expiration > 0 ∧ now > v.Expiration <;>
      simp [Cache.GetS, Cache.Get, hd, hc]

/-- Claim C9: on an entry that is present but expired, `Get` reports
not-found while `Delete` on the same state succeeds and removes the entry —
the key-not-found error depends only on map presence, never on expiration. -/
theorem C9_expired_get_vs_delete (c : Cache) (k : String) (now : Int) (v : Value)
    (hv : dataGet c.data k = some v) (he : v.Expiration > 0) (hn : now > v.Expiration) :
    c.Get k now = ("", false) ∧ (c.Delete k).2 = none ∧
      dataGet (c.Delete k).1.data k = none := by
  refine ⟨by simp [Cache.Get, hv, he, hn], ?_, ?_⟩ <;>
    simp [Cache.Delete, hv, dataGet_dataDel_self]

/-- Witness for C9: the entry expired at `5`, read and deleted at `6`. -/
theorem C9_expired_get_vs_delete_witness :
    cacheEq.Get "a" 6 = ("", false) ∧ (cacheEq.Delete "a").2 = none ∧
      dataGet (cacheEq.Delete "a").1.data "a" = none :=
  C9_expired_get_vs_delete cacheEq "a" 6 (Value.mk 0 5 "1") (by decide) (by decide) (by decide)

/-- Claim C10: a strictly negative duration is not replaced by the default
TTL and yields the non-expiring sentinel `0`: the entry is found by `Get` at
every instant and its key is never collected by the sweeper's scan. -/
theorem C10_negative_duration (c : Cache) (k v : String) (d now : Int) (hd : d < 0) :
    dataGet (c.Set k v d now).data k = some (Value.mk now 0 v) ∧
    (∀ t, (c.Set k v d now).Get k t = (v, true)) ∧
    (∀ t, k ∉ (c.Set k v d now).expiredKeys t) := by
  have hd0 : d ≠ 0 := by omega
  have hneg : ¬(0 : Int) < d := by omega
  have h1 : dataGet (c.Set k v d now).data k = some (Value.mk now 0 v) := by
    simp [Cache.Set, dataGet_dataSet_self, hd0, hneg]
  have hdata : (c.Set k v d now).data = (k, Value.mk now 0 v) :: dataDel c.data k := by
    simp [Cache.Set, dataSet, hd0, hneg]
  refine ⟨h1, fun t => by simp [Cache.Get, h1], fun t hmem => ?_⟩
  unfold Cache.expiredKeys at hmem
  rw [hdata] at hmem
  simp only [List.filter_cons] at hmem
  simp at hmem
  obtain ⟨w, hw, -, -⟩ := hmem
  exact not_mem_keys_dataDel c.data k (List.mem_map.2 ⟨(k, w), hw, rfl⟩)

/-- Witness for C10: duration `-7` on a cache with positive default TTL. -/
theorem C10_negative_duration_witness :
    dataGet ((CacheCreate 50 0).Set "a" "1" (-7) 0).data "a" = some (Value.mk 0 0 "1") ∧
    ((CacheCreate 50 0).Set "a" "1" (-7) 0).Get "a" 1000000 = ("1", true) ∧
    "a" ∉ ((CacheCreate 50 0).Set "a" "1" (-7) 0).expiredKeys 1000000 := by
  have h := C10_negative_duration (CacheCreate 50 0) "a" "1" (-7) 0 (by decide)
  exact ⟨h.1, h.2.1 1000000, h.2.2 1000000⟩

end CacheManager
